import Mathlib

/-!
Verification of the phase-analysis core (`spike_triggered_phase` and
`pairwise_phase_consistency`) against its specification.

The embedding models event and sample times as rationals (the source
compares and subtracts unit-tagged timestamps exactly), complex analytic
samples as `ℂ`, and float results as `ℝ`.  Float division by zero is
modelled by the `FVal` type so that NaN-producing paths are visible.
-/

open scoped BigOperators

/-- A uniformly sampled complex analytic signal: start time, sampling
period and ordered complex samples.  Mirrors the attributes of
`neo.AnalogSignal` used by the source. -/
structure AnalogSignal where
  t_start : ℚ
  sampling_period : ℚ
  samples : List ℂ

/-- `t_stop` of an analog signal, as in neo:
`t_start + n_samples * sampling_period`. -/
def AnalogSignal.t_stop (sig : AnalogSignal) : ℚ :=
  sig.t_start + (sig.samples.length : ℚ) * sig.sampling_period

/-- The sample timestamp at index `i`: `times[i] = t_start + i * sampling_period`. -/
def sigTimes (sig : AnalogSignal) (i : ℕ) : ℚ :=
  sig.t_start + (i : ℚ) * sig.sampling_period

/-- An event sequence (`neo.SpikeTrain`): ordered event times plus a
validity window. -/
structure SpikeTrain where
  times : List ℚ
  t_start : ℚ
  t_stop : ℚ

/-- Placeholder signal used to totalize out-of-range list access. -/
def dummySig : AnalogSignal := ⟨0, 1, []⟩

/-- Placeholder spike train used to totalize out-of-range list access. -/
def dummyTrain : SpikeTrain := ⟨[], 0, 0⟩

/-- Truncation toward zero, the behaviour of numpy `astype(int)` on the
fractional index. -/
def truncQ (q : ℚ) : ℤ :=
  if 0 ≤ q then ⌊q⌋ else -⌊-q⌋

/-- The retained events of a spike train for one signal comparison:
`np.where(spiketrain >= signal.t_start and spiketrain < signal.t_stop)`,
i.e. the events inside the left-closed right-open signal window.  The
source keeps indices into the train; order is preserved either way, so the
embedding keeps the retained times themselves. -/
def retained (sig : AnalogSignal) (st : SpikeTrain) : List ℚ :=
  st.times.filter (fun t => decide (sig.t_start ≤ t ∧ t < sig.t_stop))

/-- Index into the signal for one spike:
`((t - signal.t_start) / signal.sampling_period).astype(int)`. -/
def indAtSpike (sig : AnalogSignal) (t : ℚ) : ℕ :=
  (truncQ ((t - sig.t_start) / sig.sampling_period)).toNat

/-- The phase recorded for one spike at time `t` (body of the
per-spike loop of `spike_triggered_phase`).  With interpolation and
`i + 1` in range, the unit-circle combination
`(1-z) e^{i p1} + z e^{i p2}` is formed and its angle taken; otherwise
the angle of the sample at the truncated index is used. -/
noncomputable def phaseAt (sig : AnalogSignal) (interpolate : Bool) (t : ℚ) : ℝ :=
  let i := indAtSpike sig t
  if interpolate = true ∧ i + 1 < sig.samples.length then
    let z : ℚ := (t - sigTimes sig i) / sig.sampling_period
    let p1 : ℝ := Complex.arg (sig.samples.getD i 0)
    let p2 : ℝ := Complex.arg (sig.samples.getD (i + 1) 0)
    Complex.arg ((1 - (z : ℂ)) * Complex.exp ((p1 : ℂ) * Complex.I)
      + (z : ℂ) * Complex.exp ((p2 : ℂ) * Complex.I))
  else
    Complex.arg (sig.samples.getD i 0)

/-- The amplitude recorded for one spike at time `t`: linear
interpolation of `|samples|` between the bracketing samples, or the
magnitude at the truncated index. -/
noncomputable def ampAt (sig : AnalogSignal) (interpolate : Bool) (t : ℚ) : ℝ :=
  let i := indAtSpike sig t
  if interpolate = true ∧ i + 1 < sig.samples.length then
    let z : ℚ := (t - sigTimes sig i) / sig.sampling_period
    (1 - (z : ℝ)) * Complex.abs (sig.samples.getD i 0)
      + (z : ℝ) * Complex.abs (sig.samples.getD (i + 1) 0)
  else
    Complex.abs (sig.samples.getD i 0)

/-- The inner spike loop of `spike_triggered_phase` for one comparison:
appends one phase, one amplitude and one time per retained event, in
order. -/
noncomputable def stpLoop (sig : AnalogSignal) (interpolate : Bool) :
    List ℚ → List ℝ × List ℝ × List ℚ
  | [] => ([], [], [])
  | t :: ts =>
    let rest := stpLoop sig interpolate ts
    (phaseAt sig interpolate t :: rest.1,
     ampAt sig interpolate t :: rest.2.1,
     t :: rest.2.2)

/-- The signal matched to spiketrain index `i`:
`phase_i = i if num_phase > 1 else 0`. -/
def sigFor (signals : List AnalogSignal) (i : ℕ) : AnalogSignal :=
  signals.getD (if signals.length > 1 then i else 0) dummySig

/-- The main loop of `spike_triggered_phase`: one (phases, amps, times)
triple per spiketrain, each compared against its matched signal. -/
noncomputable def stpCore (signals : List AnalogSignal) (sts : List SpikeTrain)
    (interpolate : Bool) : List (List ℝ × List ℝ × List ℚ) :=
  (List.range sts.length).map (fun i =>
    stpLoop (sigFor signals i) interpolate
      (retained (sigFor signals i) (sts.getD i dummyTrain)))

/-- `spike_triggered_phase`: validates the cardinality rule, runs the main
loop, then converts the outputs.  The conversion step evaluates
`entry[0].units` on each amplitude list, which raises `IndexError` when a
spiketrain has no retained events; this is modelled by the
`"IndexError"` branch. -/
noncomputable def spike_triggered_phase (hilbert_transform : List AnalogSignal)
    (spiketrains : List SpikeTrain) (interpolate : Bool) :
    Except String (List (List ℝ) × List (List ℝ) × List (List ℚ)) :=
  if spiketrains.length ≠ 1 ∧ hilbert_transform.length ≠ 1 ∧
      spiketrains.length ≠ hilbert_transform.length then
    Except.error "ValueError"
  else if (stpCore hilbert_transform spiketrains interpolate).any
      (fun r => r.2.1.isEmpty) then
    Except.error "IndexError"
  else
    Except.ok ((stpCore hilbert_transform spiketrains interpolate).map (fun r => r.1),
      (stpCore hilbert_transform spiketrains interpolate).map (fun r => r.2.1),
      (stpCore hilbert_transform spiketrains interpolate).map (fun r => r.2.2))

/-- A dynamically typed element of the `phases` argument of
`pairwise_phase_consistency`: a 1-D numpy array, a 2-D numpy array, or a
value that is not an ndarray at all. -/
inductive PyVal where
  | arr1d : List ℝ → PyVal
  | arr2d : List (List ℝ) → PyVal
  | other : PyVal

/-- Whether the element is a one-dimensional numpy array. -/
def PyVal.isArr1d : PyVal → Bool
  | PyVal.arr1d _ => true
  | _ => false

/-- The numeric content of a validated element. -/
def PyVal.asList : PyVal → List ℝ
  | PyVal.arr1d l => l
  | _ => []

/-- The element-validation loop of `pairwise_phase_consistency`: for each
element in order, a non-ndarray raises `TypeError` and an ndarray whose
`ndim` is not 1 raises `ValueError`. -/
def validatePhases : List PyVal → Except String Unit
  | [] => Except.ok ()
  | p :: ps =>
    match p with
    | PyVal.arr1d _ => validatePhases ps
    | PyVal.arr2d _ => Except.error "ValueError"
    | PyVal.other => Except.error "TypeError"

/-- The error the validation loop raises at an offending element: a
non-ndarray hits the TypeError check first; an ndarray whose `ndim` is
not 1 hits the ValueError check.  (Never consulted for a 1-D array.) -/
def offenderError : PyVal → String
  | PyVal.other => "TypeError"
  | _ => "ValueError"

/-- A float-valued result that can also be NaN or an infinity, so that the
IEEE behaviour of dividing by zero is visible in the model. -/
inductive FVal where
  | nan : FVal
  | pinf : FVal
  | ninf : FVal
  | val : ℝ → FVal

/-- IEEE float division of finite operands: finite quotient when the
divisor is nonzero, NaN for 0/0, and a signed infinity otherwise. -/
noncomputable def fdiv (a b : ℝ) : FVal :=
  if b = 0 then
    (if a = 0 then FVal.nan else if 0 < a then FVal.pinf else FVal.ninf)
  else FVal.val (a / b)

/-- The pooled sequence of phase values produced by a successful
`np.hstack(phases)`.  `np.hstack` itself raises ValueError on an empty
list of arrays; that failure is modelled at the call site in
`pairwise_phase_consistency`, and this function gives the concatenation
for the nonempty case where hstack succeeds. -/
def pooledPhases (phases : List (List ℝ)) : List ℝ := phases.flatten

/-- Entry `(j, k)` of the pairwise matrix after the diagonal is zeroed:
`cos θ_j cos θ_k + sin θ_j sin θ_k` off the diagonal, `0` on it. -/
noncomputable def dotProdEntry (v : List ℝ) (j k : ℕ) : ℝ :=
  if j = k then 0
  else Real.cos (v.getD j 0) * Real.cos (v.getD k 0)
    + Real.sin (v.getD j 0) * Real.sin (v.getD k 0)

/-- `np.sum(dot_prod)` over the `N×N` matrix with zeroed diagonal. -/
noncomputable def dotProdSum (v : List ℝ) : ℝ :=
  ∑ j in Finset.range v.length, ∑ k in Finset.range v.length, dotProdEntry v j k

/-- The ppc0 computation of `pairwise_phase_consistency`: pool the phases,
sum the zero-diagonal pairwise matrix and divide by
`n_trials * n_trials - n_trials`. -/
noncomputable def ppc0 (phases : List (List ℝ)) : FVal :=
  let v := pooledPhases phases
  fdiv (dotProdSum v)
    ((v.length * v.length - v.length : ℕ) : ℝ)

/-- `pairwise_phase_consistency`: element validation, then the method
guard (`method not in ['ppc0']` raises `ValueError`), then
`np.hstack(phases)` — which raises ValueError when the list of arrays is
empty — and the ppc0 computation on the pooled phases. -/
noncomputable def pairwise_phase_consistency (phases : List PyVal)
    (method : String) : Except String FVal :=
  match validatePhases phases with
  | Except.error e => Except.error e
  | Except.ok _ =>
    if method ∈ (["ppc0"] : List String) then
      if phases.isEmpty then Except.error "ValueError"
      else Except.ok (ppc0 (phases.map PyVal.asList))
    else Except.error "ValueError"

/-- The ppc0 formula as the specification words it:
`(1 / (N(N-1))) * Σ_{j ≠ k} cos (θ_j - θ_k)` over ordered pairs. -/
noncomputable def ppc0Spec (v : List ℝ) : ℝ :=
  (1 / ((v.length : ℝ) * ((v.length : ℝ) - 1)))
    * ∑ j in Finset.range v.length, ∑ k in Finset.range v.length,
        (if j = k then 0 else Real.cos (v.getD j 0 - v.getD k 0))

/-- Concrete one-sample signal on the window `[0, 1)` used in witnesses. -/
def wSig : AnalogSignal := ⟨0, 1, [1]⟩

/-- Concrete two-sample signal on the window `[0, 2)` used in witnesses. -/
def wSig2 : AnalogSignal := ⟨0, 1, [1, Complex.I]⟩

/-- Concrete spike train with events at 0 and 1 used in witnesses. -/
def wTrain : SpikeTrain := ⟨[0, 1], 0, 2⟩

/-- Concrete spike train with one event at 0 used in witnesses. -/
def wTrain0 : SpikeTrain := ⟨[0], 0, 1⟩

/-- Concrete spike train whose only event, at time 5, lies outside the
one-sample signal window `[0, 1)`. -/
def wTrainOut : SpikeTrain := ⟨[5], 0, 10⟩

/-- The spike loop produces exactly the maps of the per-spike phase and
amplitude over the retained events, with the events themselves as times. -/
theorem stpLoop_eq (sig : AnalogSignal) (interp : Bool) (l : List ℚ) :
    stpLoop sig interp l =
      (l.map (phaseAt sig interp), l.map (ampAt sig interp), l) := by
  induction l with
  | nil => rfl
  | cons t ts ih => simp [stpLoop, ih]

theorem getD_map_range {α : Type} (f : ℕ → α) (n k : ℕ) (d : α) :
    (((List.range n).map f).getD k d) = if k < n then f k else d := by
  by_cases hk : k < n
  · rw [List.getD_eq_getElem _ _ (by simpa using hk)]
    simp [hk]
  · rw [List.getD_eq_default _ _ (by simpa using Nat.le_of_not_lt hk)]
    simp [hk]

/-- Entry `k` of the main loop's output, totalized with empty defaults:
the triple of maps over the retained events of spiketrain `k` against its
matched signal. -/
theorem stpCore_getD (signals : List AnalogSignal) (sts : List SpikeTrain)
    (interp : Bool) (k : ℕ) :
    (stpCore signals sts interp).getD k ([], [], []) =
      ((retained (sigFor signals k) (sts.getD k dummyTrain)).map
          (phaseAt (sigFor signals k) interp),
       (retained (sigFor signals k) (sts.getD k dummyTrain)).map
          (ampAt (sigFor signals k) interp),
       retained (sigFor signals k) (sts.getD k dummyTrain)) := by
  rw [stpCore, getD_map_range]
  by_cases hk : k < sts.length
  · rw [if_pos hk, stpLoop_eq]
  · rw [if_neg hk]
    have hst : sts.getD k dummyTrain = dummyTrain :=
      List.getD_eq_default _ _ (Nat.le_of_not_lt hk)
    rw [hst]
    rfl

theorem natSqSub (n : ℕ) : n * n - n = n * (n - 1) := by
  cases n with
  | zero => rfl
  | succ m => rw [Nat.succ_sub_one, Nat.mul_succ, Nat.add_sub_cancel]

theorem castDenom (n : ℕ) (hn : 1 ≤ n) :
    ((n * n - n : ℕ) : ℝ) = (n : ℝ) * ((n : ℝ) - 1) := by
  rw [natSqSub, Nat.cast_mul, Nat.cast_sub hn, Nat.cast_one]

theorem castDenom_ne (n : ℕ) (hn : 2 ≤ n) :
    ((n * n - n : ℕ) : ℝ) ≠ 0 := by
  rw [castDenom n (by omega)]
  have h2 : (2 : ℝ) ≤ (n : ℝ) := by exact_mod_cast hn
  nlinarith

/-- Element-wise, the zero-diagonal matrix entry is the cosine of the
angular difference. -/
theorem dotProdSum_eq_cos_sub (v : List ℝ) :
    dotProdSum v =
      ∑ j in Finset.range v.length, ∑ k in Finset.range v.length,
        (if j = k then 0 else Real.cos (v.getD j 0 - v.getD k 0)) := by
  unfold dotProdSum dotProdEntry
  refine Finset.sum_congr rfl fun j _ => Finset.sum_congr rfl fun k _ => ?_
  by_cases hjk : j = k
  · simp [hjk]
  · rw [if_neg hjk, if_neg hjk, Real.cos_sub]

/-- Validation succeeds when every element is a 1-D array. -/
theorem validatePhases_ok (phases : List PyVal)
    (h : phases.all PyVal.isArr1d = true) :
    validatePhases phases = Except.ok () := by
  induction phases with
  | nil => rfl
  | cons p ps ih =>
    cases p with
    | arr1d l =>
      simp only [List.all_cons, PyVal.isArr1d, Bool.true_and] at h
      simpa [validatePhases] using ih h
    | arr2d l => simp [PyVal.isArr1d] at h
    | other => simp [PyVal.isArr1d] at h

/-- Validation fails with TypeError or ValueError when some element is
not a 1-D array. -/
theorem validatePhases_err (phases : List PyVal)
    (h : phases.all PyVal.isArr1d = false) :
    validatePhases phases = Except.error "TypeError"
    ∨ validatePhases phases = Except.error "ValueError" := by
  induction phases with
  | nil => simp at h
  | cons p ps ih =>
    cases p with
    | arr1d l =>
      simp only [List.all_cons, PyVal.isArr1d, Bool.true_and] at h
      simpa [validatePhases] using ih h
    | arr2d l => exact Or.inr rfl
    | other => exact Or.inl rfl

/-- The validation loop walks the elements in order: with a 1-D prefix
and then a first offending element, it raises exactly that element's
error (TypeError for a non-array, ValueError for a non-1-D array). -/
theorem validatePhases_split (pre rest : List PyVal) (x : PyVal)
    (hpre : pre.all PyVal.isArr1d = true) (hx : x.isArr1d = false) :
    validatePhases (pre ++ x :: rest) = Except.error (offenderError x) := by
  induction pre with
  | nil =>
    cases x with
    | arr1d l => simp [PyVal.isArr1d] at hx
    | arr2d m => rfl
    | other => rfl
  | cons p ps ih =>
    cases p with
    | arr1d l =>
      simp only [List.all_cons, PyVal.isArr1d, Bool.true_and] at hpre
      simpa [validatePhases] using ih hpre
    | arr2d m => simp [PyVal.isArr1d] at hpre
    | other => simp [PyVal.isArr1d] at hpre

/-- When fewer than two phases are pooled, the ppc0 quotient is 0/0,
i.e. NaN. -/
theorem ppc0_nan_of_small (phases : List (List ℝ))
    (h : (pooledPhases phases).length < 2) : ppc0 phases = FVal.nan := by
  have h0 : (pooledPhases phases).length = 0 ∨ (pooledPhases phases).length = 1 := by
    omega
  have hD : (((pooledPhases phases).length * (pooledPhases phases).length
      - (pooledPhases phases).length : ℕ) : ℝ) = 0 := by
    rcases h0 with h0 | h0 <;> rw [h0] <;> norm_num
  have hS : dotProdSum (pooledPhases phases) = 0 := by
    unfold dotProdSum
    rcases h0 with h0 | h0 <;> rw [h0]
    · simp
    · simp [dotProdEntry]
  simp only [ppc0, fdiv, hD, hS, if_pos]

/-- Claim C3: for a pooled input of at least two phases, ppc0 returns
`(1 / (N(N-1)))` times the sum of `cos (θ_j - θ_k)` over all ordered
pairs with `j ≠ k` (the diagonal of the cosine-plus-sine product matrix
is zeroed). -/
theorem C3_ppc0_formula (phases : List (List ℝ))
    (h : 2 ≤ (pooledPhases phases).length) :
    ppc0 phases = FVal.val (ppc0Spec (pooledPhases phases)) := by
  have hDne := castDenom_ne (pooledPhases phases).length h
  simp only [ppc0, fdiv, if_neg hDne]
  unfold ppc0Spec
  rw [one_div_mul_eq_div, dotProdSum_eq_cos_sub,
    castDenom (pooledPhases phases).length (by omega)]

/-- Witness for C3 at the concrete pooled input of two zero phases. -/
theorem C3_witness :
    2 ≤ (pooledPhases [[(0 : ℝ), 0]]).length
    ∧ ppc0 [[(0 : ℝ), 0]] = FVal.val (ppc0Spec (pooledPhases [[(0 : ℝ), 0]])) :=
  ⟨by decide, C3_ppc0_formula [[(0 : ℝ), 0]] (by decide)⟩

/-- Claim C9: ppc0 of `N ≥ 2` identical pooled phases is exactly 1. -/
theorem C9_perfect_locking (phases : List (List ℝ)) (n : ℕ) (θ : ℝ)
    (hrep : pooledPhases phases = List.replicate n θ) (hn : 2 ≤ n) :
    ppc0 phases = FVal.val 1 := by
  have hlen : (pooledPhases phases).length = n := by rw [hrep, List.length_replicate]
  have hgetD : ∀ j, j < n → (pooledPhases phases).getD j 0 = θ := by
    intro j hj
    rw [hrep, List.getD_eq_getElem _ _ (by simpa using hj)]
    simp
  have hinner : ∀ j ∈ Finset.range n,
      (∑ k in Finset.range n, dotProdEntry (pooledPhases phases) j k)
        = (n : ℝ) - 1 := by
    intro j hj
    have hstep : ∀ k ∈ Finset.range n,
        dotProdEntry (pooledPhases phases) j k
          = 1 - (if j = k then (1 : ℝ) else 0) := by
      intro k hk
      unfold dotProdEntry
      by_cases hjk : j = k
      · simp [hjk]
      · rw [if_neg hjk, if_neg hjk,
          hgetD j (Finset.mem_range.mp hj), hgetD k (Finset.mem_range.mp hk),
          ← Real.cos_sub, sub_self, Real.cos_zero]
        norm_num
    rw [Finset.sum_congr rfl hstep, Finset.sum_sub_distrib,
      Finset.sum_const, Finset.card_range, Finset.sum_ite_eq, if_pos hj]
    simp
  have hS : dotProdSum (pooledPhases phases) = (n : ℝ) * ((n : ℝ) - 1) := by
    unfold dotProdSum
    rw [hlen, Finset.sum_congr rfl hinner, Finset.sum_const, Finset.card_range]
    simp
  have hDne := castDenom_ne n hn
  have hD := castDenom n (by omega)
  have hDne2 : (n : ℝ) * ((n : ℝ) - 1) ≠ 0 := hD ▸ hDne
  simp only [ppc0, fdiv, hlen, hS, hD]
  rw [if_neg hDne2, div_self hDne2]

/-- Witness for C9 at the concrete pooled input of two equal phases. -/
theorem C9_witness :
    pooledPhases [[(5 : ℝ), 5]] = List.replicate 2 (5 : ℝ) ∧ 2 ≤ 2
    ∧ ppc0 [[(5 : ℝ), 5]] = FVal.val 1 :=
  ⟨rfl, by decide, C9_perfect_locking [[(5 : ℝ), 5]] 2 5 rfl (by decide)⟩

/-- Claim C8 (amended): with at least one array in the input and fewer
than two pooled phases, the ppc0 call returns NaN (0/0 from the empty
zero-diagonal sum over the zero denominator) instead of raising. -/
theorem C8_nan_small_input (phases : List PyVal)
    (hv : phases.all PyVal.isArr1d = true)
    (hne : phases ≠ [])
    (hn : (pooledPhases (phases.map PyVal.asList)).length < 2) :
    pairwise_phase_consistency phases "ppc0" = Except.ok FVal.nan := by
  have hval := validatePhases_ok phases hv
  have hemp : phases.isEmpty = false := by
    cases phases with
    | nil => exact absurd rfl hne
    | cons p ps => rfl
  simp only [pairwise_phase_consistency, hval, hemp]
  rw [if_pos (by simp), if_neg (by simp), ppc0_nan_of_small _ hn]

/-- Counterexample for C8 as stated: the empty input list has pooled
phase count 0 < 2, but `np.hstack` of an empty list of arrays raises
ValueError, so the call errors instead of returning NaN. -/
theorem C8_counterexample :
    pairwise_phase_consistency [] "ppc0" = Except.error "ValueError"
    ∧ (Except.error "ValueError" : Except String FVal) ≠ Except.ok FVal.nan :=
  ⟨rfl, by simp⟩

/-- Witness for C8 (amended) at the concrete input of a single
one-element array. -/
theorem C8_witness :
    ([PyVal.arr1d [(0 : ℝ)]].all PyVal.isArr1d = true)
    ∧ ([PyVal.arr1d [(0 : ℝ)]] : List PyVal) ≠ []
    ∧ (pooledPhases ([PyVal.arr1d [(0 : ℝ)]].map PyVal.asList)).length < 2
    ∧ pairwise_phase_consistency [PyVal.arr1d [(0 : ℝ)]] "ppc0"
        = Except.ok FVal.nan :=
  ⟨by decide, by simp, by decide,
   C8_nan_small_input _ (by decide) (by simp) (by decide)⟩

/-- Claim C7: selecting method ppc1 always raises (the method guard
rejects it before the unreachable stub), for every input. -/
theorem C7_ppc1_raises (phases : List PyVal) :
    ∃ e, pairwise_phase_consistency phases "ppc1" = Except.error e := by
  cases hval : validatePhases phases with
  | error e => exact ⟨e, by simp [pairwise_phase_consistency, hval]⟩
  | ok u =>
    cases u
    refine ⟨"ValueError", ?_⟩
    simp only [pairwise_phase_consistency, hval]
    rw [if_neg (by decide)]

/-- Claim C6 (amended): an input that is not composed exclusively of 1-D
arrays fails before any computation, with the error determined by the
first offending element: TypeError when it is not an array at all,
ValueError when it is an array that is not one-dimensional. -/
theorem C6_validation_errors (phases : List PyVal) (method : String)
    (pre rest : List PyVal) (x : PyVal)
    (hsplit : phases = pre ++ x :: rest)
    (hpre : pre.all PyVal.isArr1d = true)
    (hx : x.isArr1d = false) :
    pairwise_phase_consistency phases method = Except.error (offenderError x) := by
  subst hsplit
  simp [pairwise_phase_consistency, validatePhases_split pre rest x hpre hx]

/-- Counterexample for C6 as stated: a two-dimensional array element
makes the call fail with ValueError, not TypeError. -/
theorem C6_counterexample :
    pairwise_phase_consistency [PyVal.arr2d [[(0 : ℝ)]]] "ppc0"
        = Except.error "ValueError"
    ∧ (Except.error "ValueError" : Except String FVal)
        ≠ Except.error "TypeError" := by
  constructor
  · rfl
  · simp

/-- Witness for C6 (amended): a non-array element after a 1-D array
prefix yields TypeError. -/
theorem C6_witness :
    (([PyVal.arr1d [(0 : ℝ)], PyVal.other] : List PyVal)
        = [PyVal.arr1d [(0 : ℝ)]] ++ PyVal.other :: []
      ∧ ([PyVal.arr1d [(0 : ℝ)]] : List PyVal).all PyVal.isArr1d = true
      ∧ PyVal.other.isArr1d = false)
    ∧ offenderError PyVal.other = "TypeError"
    ∧ pairwise_phase_consistency [PyVal.arr1d [(0 : ℝ)], PyVal.other] "ppc0"
        = Except.error (offenderError PyVal.other) :=
  ⟨⟨rfl, by decide, by decide⟩, rfl,
   C6_validation_errors [PyVal.arr1d [(0 : ℝ)], PyVal.other] "ppc0"
     [PyVal.arr1d [(0 : ℝ)]] [] PyVal.other rfl (by decide) (by decide)⟩

/-- Claim C5: for a signal with at least one sample and positive sampling
period, an event exactly at the signal's t_start is retained and an event
exactly at its t_stop is not (left-closed right-open window). -/
theorem C5_window_boundaries (sig : AnalogSignal) (st : SpikeTrain)
    (hT : 0 < sig.sampling_period) (hL : 0 < sig.samples.length) :
    (sig.t_start ∈ st.times → sig.t_start ∈ retained sig st)
    ∧ sig.t_stop ∉ retained sig st := by
  constructor
  · intro hmem
    have hcast : (0 : ℚ) < (sig.samples.length : ℚ) := by exact_mod_cast hL
    have hpos : (0 : ℚ) < (sig.samples.length : ℚ) * sig.sampling_period :=
      mul_pos hcast hT
    have hlt : sig.t_start < sig.t_stop := by
      unfold AnalogSignal.t_stop
      linarith
    refine List.mem_filter.mpr ⟨hmem, ?_⟩
    simp [hlt]
  · intro hmem
    have h2 := (List.mem_filter.mp hmem).2
    simp at h2

/-- Witness for C5 at the one-sample signal and events at 0 and 1. -/
theorem C5_witness :
    (0 < wSig.sampling_period ∧ 0 < wSig.samples.length)
    ∧ ((wSig.t_start ∈ wTrain.times → wSig.t_start ∈ retained wSig wTrain)
      ∧ wSig.t_stop ∉ retained wSig wTrain) :=
  ⟨⟨by decide, by decide⟩, C5_window_boundaries wSig wTrain (by decide) (by decide)⟩

/-- Claim C4: for an event exactly on a sample timestamp (fractional
offset z = 0) with the successor sample in range, the interpolated phase
equals the non-interpolated phase. -/
theorem C4_interp_at_sample (sig : AnalogSignal) (t : ℚ)
    (hz : t = sigTimes sig (indAtSpike sig t))
    (hrange : indAtSpike sig t + 1 < sig.samples.length) :
    phaseAt sig true t = phaseAt sig false t := by
  have hz0 : (t - sigTimes sig (indAtSpike sig t)) / sig.sampling_period = 0 := by
    rw [← hz, sub_self, zero_div]
  simp only [phaseAt]
  rw [if_pos (And.intro trivial hrange), if_neg (by simp), hz0]
  push_cast
  rw [sub_zero, one_mul, zero_mul, add_zero, Complex.exp_mul_I]
  exact Complex.arg_cos_add_sin_mul_I (Complex.arg_mem_Ioc _)

/-- Witness for C4 at the two-sample signal and an event at time 0. -/
theorem C4_witness :
    ((0 : ℚ) = sigTimes wSig2 (indAtSpike wSig2 0)
      ∧ indAtSpike wSig2 0 + 1 < wSig2.samples.length)
    ∧ phaseAt wSig2 true 0 = phaseAt wSig2 false 0 :=
  ⟨⟨by simp [wSig2, sigTimes, indAtSpike, truncQ],
    by simp [wSig2, indAtSpike, truncQ]⟩,
   C4_interp_at_sample wSig2 0 (by simp [wSig2, sigTimes, indAtSpike, truncQ])
     (by simp [wSig2, indAtSpike, truncQ])⟩

/-- Claim C2, behaviour at the failing input: a spiketrain with zero
retained events makes the output conversion evaluate the units of the
first element of an empty list, so the call raises IndexError instead of
returning empty sequences. -/
theorem C2_empty_train_raises :
    spike_triggered_phase [wSig] [wTrainOut] false = Except.error "IndexError" := by
  simp [spike_triggered_phase, stpCore, sigFor, stpLoop, retained, wSig, wTrainOut,
    AnalogSignal.t_stop]

theorem getD_map_at {α β : Type} (f : α → β) (l : List α) (k : ℕ) (d : α) :
    (l.map f).getD k (f d) = f (l.getD k d) := by
  induction l generalizing k with
  | nil => rfl
  | cons x xs ih =>
    cases k with
    | zero => rfl
    | succ m => exact ih m

/-- With a single event sequence whose retained set is nonempty, the call
returns exactly one entry, comparing against the first signal only. -/
theorem stp_one_train (signals : List AnalogSignal) (st : SpikeTrain)
    (interp : Bool) (hne : retained (sigFor signals 0) st ≠ []) :
    spike_triggered_phase signals [st] interp =
      Except.ok
        ([(retained (sigFor signals 0) st).map (phaseAt (sigFor signals 0) interp)],
         [(retained (sigFor signals 0) st).map (ampAt (sigFor signals 0) interp)],
         [retained (sigFor signals 0) st]) := by
  have hcore : stpCore signals [st] interp =
      [((retained (sigFor signals 0) st).map (phaseAt (sigFor signals 0) interp),
        (retained (sigFor signals 0) st).map (ampAt (sigFor signals 0) interp),
        retained (sigFor signals 0) st)] := by
    unfold stpCore
    rw [show (List.range ([st] : List SpikeTrain).length) = [0] from rfl]
    rw [List.map_cons, List.map_nil, stpLoop_eq]
    rfl
  rw [spike_triggered_phase, if_neg (by simp), hcore, if_neg]
  · rfl
  · simp [hne]

/-- Claim C1 (amended): with a single event sequence and more than one
signal, the call is accepted and returns exactly one
(phases, amplitudes, times) entry, obtained by comparing that event
sequence against the first signal only. -/
theorem C1_single_train_first_signal (signals : List AnalogSignal)
    (st : SpikeTrain) (interp : Bool) (_hS : 1 < signals.length)
    (hne : retained (sigFor signals 0) st ≠ []) :
    spike_triggered_phase signals [st] interp =
      Except.ok
        ([(retained (sigFor signals 0) st).map (phaseAt (sigFor signals 0) interp)],
         [(retained (sigFor signals 0) st).map (ampAt (sigFor signals 0) interp)],
         [retained (sigFor signals 0) st]) :=
  stp_one_train signals st interp hne

/-- Counterexample for C1 as stated: with one event sequence and two
signals the successful result has one entry, not two. -/
theorem C1_counterexample :
    (spike_triggered_phase [wSig, wSig2] [wTrain0] false).toOption.map
        (fun r => r.2.2.length) = some 1
    ∧ (1 : ℕ) ≠ 2 := by
  refine ⟨?_, by decide⟩
  rw [stp_one_train [wSig, wSig2] wTrain0 false
    (by simp [retained, sigFor, wSig, wSig2, wTrain0, AnalogSignal.t_stop])]
  rfl

/-- Witness for C1 (amended) at two concrete signals and one train. -/
theorem C1_witness :
    (1 < ([wSig, wSig2] : List AnalogSignal).length
      ∧ retained (sigFor [wSig, wSig2] 0) wTrain0 ≠ [])
    ∧ spike_triggered_phase [wSig, wSig2] [wTrain0] false =
        Except.ok
          ([(retained (sigFor [wSig, wSig2] 0) wTrain0).map
              (phaseAt (sigFor [wSig, wSig2] 0) false)],
           [(retained (sigFor [wSig, wSig2] 0) wTrain0).map
              (ampAt (sigFor [wSig, wSig2] 0) false)],
           [retained (sigFor [wSig, wSig2] 0) wTrain0]) :=
  ⟨⟨by decide, by simp [retained, sigFor, wSig, wSig2, wTrain0, AnalogSignal.t_stop]⟩,
   C1_single_train_first_signal [wSig, wSig2] wTrain0 false (by decide)
     (by simp [retained, sigFor, wSig, wSig2, wTrain0, AnalogSignal.t_stop])⟩

/-- Claim C10: on a successful call, entry `k` of each of the three output
lists is index-aligned over the retained events of spiketrain `k`: the
phases and amplitudes are the per-event values mapped over the retained
times, the times are the retained times themselves, and all three have
the same length, the number of retained events. -/
theorem C10_outputs_aligned (signals : List AnalogSignal) (sts : List SpikeTrain)
    (interp : Bool) (r : List (List ℝ) × List (List ℝ) × List (List ℚ)) (k : ℕ)
    (h : spike_triggered_phase signals sts interp = Except.ok r) :
    r.1.getD k [] = (retained (sigFor signals k) (sts.getD k dummyTrain)).map
        (phaseAt (sigFor signals k) interp)
    ∧ r.2.1.getD k [] = (retained (sigFor signals k) (sts.getD k dummyTrain)).map
        (ampAt (sigFor signals k) interp)
    ∧ r.2.2.getD k [] = retained (sigFor signals k) (sts.getD k dummyTrain)
    ∧ (r.1.getD k []).length
        = (retained (sigFor signals k) (sts.getD k dummyTrain)).length
    ∧ (r.2.1.getD k []).length
        = (retained (sigFor signals k) (sts.getD k dummyTrain)).length
    ∧ (r.2.2.getD k []).length
        = (retained (sigFor signals k) (sts.getD k dummyTrain)).length := by
  rw [spike_triggered_phase] at h
  split at h
  · simp at h
  · split at h
    · simp at h
    · injection h with h
      subst h
      have e1 : ((stpCore signals sts interp).map (fun r => r.1)).getD k []
          = ((stpCore signals sts interp).getD k ([], [], [])).1 :=
        getD_map_at (fun r => r.1) (stpCore signals sts interp) k ([], [], [])
      have e2 : ((stpCore signals sts interp).map (fun r => r.2.1)).getD k []
          = ((stpCore signals sts interp).getD k ([], [], [])).2.1 :=
        getD_map_at (fun r => r.2.1) (stpCore signals sts interp) k ([], [], [])
      have e3 : ((stpCore signals sts interp).map (fun r => r.2.2)).getD k []
          = ((stpCore signals sts interp).getD k ([], [], [])).2.2 :=
        getD_map_at (fun r => r.2.2) (stpCore signals sts interp) k ([], [], [])
      have hcore := stpCore_getD signals sts interp k
      refine ⟨?_, ?_, ?_, ?_, ?_, ?_⟩
      · show ((stpCore signals sts interp).map (fun r => r.1)).getD k [] = _
        rw [e1, hcore]
      · show ((stpCore signals sts interp).map (fun r => r.2.1)).getD k [] = _
        rw [e2, hcore]
      · show ((stpCore signals sts interp).map (fun r => r.2.2)).getD k [] = _
        rw [e3, hcore]
      · show (((stpCore signals sts interp).map (fun r => r.1)).getD k []).length = _
        rw [e1, hcore]
        exact List.length_map _ _
      · show (((stpCore signals sts interp).map (fun r => r.2.1)).getD k []).length = _
        rw [e2, hcore]
        exact List.length_map _ _
      · show (((stpCore signals sts interp).map (fun r => r.2.2)).getD k []).length = _
        rw [e3, hcore]

/-- Witness for C10 at a concrete successful call. -/
theorem C10_witness :
    spike_triggered_phase [wSig] [wTrain0] false =
      Except.ok ([[phaseAt wSig false 0]], [[ampAt wSig false 0]], [[(0 : ℚ)]])
    ∧ ([[phaseAt wSig false 0]] : List (List ℝ)).getD 0 []
        = (retained (sigFor [wSig] 0) ([wTrain0].getD 0 dummyTrain)).map
            (phaseAt (sigFor [wSig] 0) false)
    ∧ ([[ampAt wSig false 0]] : List (List ℝ)).getD 0 []
        = (retained (sigFor [wSig] 0) ([wTrain0].getD 0 dummyTrain)).map
            (ampAt (sigFor [wSig] 0) false)
    ∧ ([[(0 : ℚ)]] : List (List ℚ)).getD 0 []
        = retained (sigFor [wSig] 0) ([wTrain0].getD 0 dummyTrain) := by
  have hsig : sigFor [wSig] 0 = wSig := rfl
  have hretained : retained wSig wTrain0 = [0] := by
    simp [retained, wSig, wTrain0, AnalogSignal.t_stop]
  have hne : retained (sigFor [wSig] 0) wTrain0 ≠ [] := by
    rw [hsig, hretained]
    simp
  have hok : spike_triggered_phase [wSig] [wTrain0] false =
      Except.ok ([[phaseAt wSig false 0]], [[ampAt wSig false 0]], [[(0 : ℚ)]]) := by
    rw [stp_one_train [wSig] wTrain0 false hne, hsig, hretained]
    rfl
  have hmain := C10_outputs_aligned [wSig] [wTrain0] false
    ([[phaseAt wSig false 0]], [[ampAt wSig false 0]], [[(0 : ℚ)]]) 0 hok
  exact ⟨hok, hmain.1, hmain.2.1, hmain.2.2.1⟩
